import Mathlib

/-!
Shallow embedding of the query-construction and pagination logic of
`src/cmr/queries.py` (the python_cmr client), together with theorems checking
the natural-language specification against it.

Conventions of the embedding:
* Python's `dict` (insertion-ordered, unique keys) is modelled as an ordered
  association list `Params := List (String × Value)`; `dictSet` mirrors
  `d[k] = v` (update in place keeps the position of an existing key, a new key
  is appended) and `dictDel` mirrors `del d[k]`.
* Python floats are modelled as rationals `ℚ`; the string produced by
  `str(float(x))` is modelled by `floatStr`.
* A Python value in "FloatLike" position is modelled by a `FloatLike` record
  recording the three observations the source makes of it: its truthiness
  (`not x`), the result of `float(x)` (`none` when the coercion raises), and
  the text an f-string interpolation produces for it.
* Fallible methods return `Except String _`; the `.error` payload carries the
  exception message from the source.
-/

namespace Cmr

/-- A value stored in the parameter store: the source stores strings, booleans
(`online_only`, `downloadable`) and lists of strings (e.g. `concept_id`,
`temporal`). -/
inductive Value where
  | s (str : String)
  | b (bool : Bool)
  | l (elems : List String)
deriving DecidableEq, Repr

/-- Embeds `self.params`: Python dict from filter name to value, insertion ordered. -/
abbrev Params := List (String × Value)

/-- Embeds `self.options`: Python dict from parameter name to a dict of option values.
Option values are `Value`s so that `build_url`'s defensive boolean check is
representable. -/
abbrev Options := List (String × List (String × Value))

/-- Embeds `d[k] = v` on a Python dict: replace in place when the key exists
(keeping its position), otherwise append. -/
def dictSet (p : Params) (k : String) (v : Value) : Params :=
  if p.any (fun kv => kv.1 = k) then
    p.map (fun kv => if kv.1 = k then (k, v) else kv)
  else
    p ++ [(k, v)]

/-- Embeds `del d[k]` on a Python dict (keys are unique, so this removes one entry). -/
def dictDel (p : Params) (k : String) : Params :=
  p.filter (fun kv => kv.1 ≠ k)

/-- Embeds `k in d` on a Python dict. -/
def hasKey (p : Params) (k : String) : Bool :=
  p.any (fun kv => kv.1 = k)

/-- Embeds `d.get(k)` on a Python dict. -/
def dictGet (p : Params) (k : String) : Option Value :=
  (p.find? (fun kv => kv.1 = k)).map (·.2)

/-- Observations of a Python value used in `FloatLike` positions
(`Union[str, SupportsFloat]`): `truthy` is `bool(x)` (so `not x` is its
negation), `toFloat` is `float(x)` with `none` for a raised
`ValueError`/`TypeError`, and `repr` is what an f-string interpolation renders for it. -/
structure FloatLike where
  truthy : Bool
  toFloat : Option ℚ
  repr : String
deriving DecidableEq, Repr

/-- The Python int `0` as a `FloatLike`: falsy, float value 0, rendered "0". -/
def pyZero : FloatLike := ⟨false, some 0, "0"⟩

/-- The Python int `100` as a `FloatLike`. -/
def pyHundred : FloatLike := ⟨true, some 100, "100"⟩

/-- Embeds `str(q)` for a Python float modelled as a rational. The exact digits are
irrelevant to every claim; what matters is that serialization applies this one
function to each converted coordinate. -/
def floatStr (q : ℚ) : String := toString q

/-- Embeds `str.join`: `joinSep sep [a, b, c] = a ++ sep ++ b ++ sep ++ c`. -/
def joinSep (sep : String) : List String → String
  | [] => ""
  | [x] => x
  | x :: y :: xs => x ++ sep ++ joinSep sep (y :: xs)

/-- Embeds `GranuleQuery.cloud_cover(min_cover, max_cover)`, the parameter-validation
and serialization logic. Mirrors the source line by line:

* `if not min_cover and not max_cover: raise ValueError(...)`
* `if min_cover and max_cover:` attempt `float` on both inside
  `try/except`; a failed coercion raises, and `float(min) > float(max)`
  raises (that `ValueError` is itself caught by the `except ValueError`
  branch and re-raised with the "both floats" message);
* otherwise the f-string of `min_cover`, a comma and `max_cover` is stored
  under `cloud_cover`; it is returned here as the stored string. -/
def cloud_cover (min_cover max_cover : FloatLike) : Except String String :=
  if !min_cover.truthy && !max_cover.truthy then
    .error "Please provide at least min_cover, max_cover or both"
  else if min_cover.truthy && max_cover.truthy then
    match min_cover.toFloat, max_cover.toFloat with
    | some minimum, some maxiumum =>
        if minimum > maxiumum then
          .error "Please ensure min_cover and max_cover are both floats"
        else
          .ok (min_cover.repr ++ "," ++ max_cover.repr)
    | _, _ => .error "Please ensure min_cover and max_cover are both floats"
  else
    .ok (min_cover.repr ++ "," ++ max_cover.repr)

/-- Embeds `GranuleCollectionBaseQuery.polygon(coordinates)`. Coordinates are already
modelled as Python floats (`ℚ` pairs). `Except.ok none` models the
`if not coordinates: return self` branch (no parameter is stored);
`Except.ok (some s)` models a successful call storing `params["polygon"] = s`.
The closure check compares `as_floats[0]` with `as_floats[-2]` and
`as_floats[1]` with `as_floats[-1]`, i.e. the first pair with the last pair
of the flattened float list. -/
def polygon : List (ℚ × ℚ) → Except String (Option String)
  | [] => .ok none
  | (lon0, lat0) :: rest =>
    if ((lon0, lat0) :: rest).length < 4 then
      .error "A polygon requires at least 4 pairs of coordinates"
    else if lon0 ≠ (rest.getLast?.getD (lon0, lat0)).1 ∨
        lat0 ≠ (rest.getLast?.getD (lon0, lat0)).2 then
      .error "Coordinates of the last pair must match the first pair"
    else
      .ok (some (joinSep ","
        (((((lon0, lat0) :: rest).map (fun q => [q.1, q.2])).flatten).map floatStr)))

/-- Embeds `self.headers`: Python dict from header name to header value. -/
abbrev Headers := List (String × String)

/-- Embeds `Query.token(token)`: `if not token: return self` else
`self.headers = {'Authorization': token}` — note the source assigns a brand
new dict, it does not update the existing one. -/
def token (headers : Headers) (tok : String) : Headers :=
  if tok = "" then headers else [("Authorization", tok)]

/-- Embeds `Query.bearer_token(bearer_token)`: `if not bearer_token: return self` else
`self.headers = {'Authorization': f'Bearer {bearer_token}'}` — again a brand
new dict. -/
def bearer_token (headers : Headers) (tok : String) : Headers :=
  if tok = "" then headers else [("Authorization", "Bearer " ++ tok)]

/-- Embeds `d.get(k)` on the headers dict. -/
def headersGet (h : Headers) (k : String) : Option String :=
  (h.find? (fun kv => kv.1 = k)).map (·.2)

/-- One token of a regex pattern as used in `_valid_formats_regex`: a literal
character, or the character class `[0-9]`. These are the only constructs the
source's patterns use. -/
inductive PatTok where
  | lit (c : Char)
  | digit
deriving DecidableEq, Repr

/-- A regex as used in `_valid_formats_regex`: a plain sequence of tokens. -/
abbrev Pattern := List PatTok

/-- Whether a single pattern token matches a character. -/
def tokMatch : PatTok → Char → Bool
  | .lit c, d => c = d
  | .digit, d => d.isDigit

/-- Whether the pattern matches a prefix of the character list
(`re.match` at this position). -/
def matchHere : Pattern → List Char → Bool
  | [], _ => true
  | _ :: _, [] => false
  | t :: p, c :: s => tokMatch t c && matchHere p s

/-- Embeds `re.search(pattern, s)` as a Boolean: the pattern matches starting at some
position of `s`. -/
def searchPat (p : Pattern) (s : List Char) : Bool :=
  s.tails.any (matchHere p)

/-- A pattern that is a string literal (every base format is one). -/
def litPat (s : String) : Pattern := s.data.map PatTok.lit

/-- The names in `Query._valid_formats_regex` at class definition time. -/
def baseFormatNames : List String :=
  ["json", "xml", "echo10", "iso", "iso19115", "csv", "atom", "kml", "native"]

/-- Embeds `Query._valid_formats_regex`, the class-level shared list of patterns. -/
def valid_formats_regex : List Pattern := baseFormatNames.map litPat

/-- The versioned pattern `umm_json_v[0-9]_[0-9]`. -/
def ummVersionedPat : Pattern :=
  litPat "umm_json_v" ++ [PatTok.digit] ++ [PatTok.lit '_'] ++ [PatTok.digit]

/-- The extra patterns `["dif", "dif10", "opendata", "umm_json",
"umm_json_v[0-9]_[0-9]"]` appended by the constructors of `CollectionQuery`,
`ToolQuery`, `ServiceQuery` and `VariableQuery`. -/
def extraFormats : List Pattern :=
  [litPat "dif", litPat "dif10", litPat "opendata", litPat "umm_json",
   ummVersionedPat]

/-- Embeds `self._valid_formats_regex.extend([...])` as run by the constructors of
`CollectionQuery`, `ToolQuery`, `ServiceQuery` and `VariableQuery`. None of
these classes defines its own `_valid_formats_regex`, so attribute lookup
resolves `self._valid_formats_regex` to the single class-level list on
`Query`, and `extend` mutates that shared list in place; this function maps
the shared list before the call to the shared list after it. -/
def extendFormats (shared : List Pattern) : List Pattern :=
  shared ++ extraFormats

/-- Embeds `Query.format(output_format)`: empty input defaults to "json"; then the
source loops over `self._valid_formats_regex` and accepts (storing the
requested format verbatim in `self._format`) on the first pattern for which
`re.search` succeeds, raising `ValueError` when no pattern matches. -/
def pyFormat (valid_formats : List Pattern) (output_format : String) :
    Except String String :=
  let output_format := if output_format = "" then "json" else output_format
  if valid_formats.any (fun p => searchPat p output_format.data) then
    .ok output_format
  else
    .error ("Unsupported format: " ++ output_format)

/-- Embeds `GranuleQuery._valid_state`: spatial params must be paired with a
collection limiting parameter. The key lists are exactly those of the source:
`spatial_keys = ["point", "polygon", "bounding_box", "line"]` (note: no
"circle") and `collection_keys = ["short_name", "entry_title"]`. -/
def granule_valid_state (params : Params) : Bool :=
  let spatial_keys := ["point", "polygon", "bounding_box", "line"]
  let collection_keys := ["short_name", "entry_title"]
  if spatial_keys.any (fun key => hasKey params key) then
    collection_keys.any (fun key => hasKey params key)
  else
    true

/-- Embeds `CollectionQuery._valid_state` (also `Tool/Service/VariableQuery`):
always `True`. -/
def alwaysValidState (_ : Params) : Bool := true

/-- Serialization of one `params` entry inside `_build_url`: list values
become repeated `key[]=element` entries, booleans become `key=` followed by
`str(val).lower()`, and everything else becomes `key=value`. -/
def formatParam (kv : String × Value) : List String :=
  match kv.2 with
  | .l elems => elems.map (fun e => kv.1 ++ "[]=" ++ e)
  | .b b => [kv.1 ++ "=" ++ (if b then "true" else "false")]
  | .s s => [kv.1 ++ "=" ++ s]

/-- Serialization of the options map inside `_build_url`: every option value
must be a boolean (otherwise `TypeError`), serialized as
`options[param][option]=true|false`. -/
def formatOptionsOf (param_key : String) :
    List (String × Value) → Except String (List String)
  | [] => .ok []
  | (option_key, v) :: restOpts =>
    match v with
    | .b b =>
      match formatOptionsOf param_key restOpts with
      | .ok tail =>
        .ok (("options[" ++ param_key ++ "][" ++ option_key ++ "]=" ++
          (if b then "true" else "false")) :: tail)
      | .error e => .error e
    | _ =>
      .error ("parameter " ++ param_key ++ " with option " ++ option_key ++
        " must be a boolean")

/-- Serialization of the whole options map inside `_build_url`. -/
def formatOptions : Options → Except String (List String)
  | [] => .ok []
  | (param_key, opts) :: restParams =>
    match formatOptionsOf param_key opts, formatOptions restParams with
    | .ok here, .ok tail => .ok (here ++ tail)
    | .error e, _ => .error e
    | _, .error e => .error e

/-- Embeds `res.rstrip('&')`: remove every trailing `&`. -/
def rstripAmp (s : String) : String :=
  ⟨(s.data.reverse.dropWhile (fun c => c = '&')).reverse⟩

/-- Embeds `Query._build_url`. Validates the state via the kind-specific
`_valid_state` (raising `RuntimeError` on failure), serializes `params` and
`options`, and concatenates the base URL, a dot, the format, a question mark,
the joined parameters, an ampersand and the joined options, before stripping
trailing `&`. -/
def build_url (valid_state : Params → Bool) (base_url format : String)
    (params : Params) (options : Options) : Except String String :=
  if !valid_state params then
    .error ("Spatial parameters must be accompanied by a collection filter " ++
      "(ex: short_name or entry_title).")
  else
    let params_as_string := joinSep "&" ((params.map formatParam).flatten)
    match formatOptions options with
    | .error e => .error e
    | .ok formatted_options =>
      let options_as_string := joinSep "&" formatted_options
      .ok (rstripAmp (base_url ++ "." ++ format ++ "?" ++ params_as_string ++
        "&" ++ options_as_string))

/-- The remote side of the cursor protocol used by `Query.get`: given the
current `cmr-search-after` request header (`none` on the first request) and
the requested `page_size`, it answers with the page's entry list
(`response.json()["feed"]["entry"]` in the JSON format path) and the
`cmr-search-after` response header (`none` when no further pages exist). -/
structure CursorServer (α : Type) (Cursor : Type) where
  respond : Option Cursor → Nat → List α × Option Cursor

/-- The loop body of `Query.get` (`while more_results: ...`). The loop runs
at least once (`more_results = True` initially), so this function performs one
request and recurses exactly when the source's
`more_results = n_results < limit and cmr_search_after is not None`
condition holds. State mirrored from the source:

* `n_results`: the running count, increased by `page_size` (not by the number
  of entries actually received — see the comment in the source);
* `cursor`: the `cmr-search-after` header value, replaced only when the
  response carries one;
* `acc`: the `results` list, extended with each page's entries;
* `sizes`: instrumentation recording the `page_size` of every request issued,
  so that theorems can speak about the number and shape of requests. -/
def getAux (server : CursorServer α Cursor) (limit : Nat) (n_results : Nat)
    (cursor : Option Cursor) (acc : List α) (sizes : List Nat) :
    List α × List Nat :=
  if h : n_results + min (limit - n_results) 2000 < limit ∧
      (server.respond cursor (min (limit - n_results) 2000)).2.isSome then
    getAux server limit
      (n_results + min (limit - n_results) 2000)
      (match (server.respond cursor (min (limit - n_results) 2000)).2 with
        | some c => some c
        | none => cursor)
      (acc ++ (server.respond cursor (min (limit - n_results) 2000)).1)
      (sizes ++ [min (limit - n_results) 2000])
  else
    (acc ++ (server.respond cursor (min (limit - n_results) 2000)).1,
      sizes ++ [min (limit - n_results) 2000])
termination_by limit - n_results
decreasing_by
  have hps : 0 < min (limit - n_results) 2000 := by
    rcases h with ⟨h1, _⟩
    omega
  omega

/-- Embeds `Query.get(limit)` (granule/collection queries, JSON format path),
instrumented with the list of requested page sizes. -/
def queryGet (server : CursorServer α Cursor) (limit : Nat) :
    List α × List Nat :=
  getAux server limit 0 none [] []

/-- A cursor server backed by a fixed list `all` of matching records, realizing
the claim's assumptions: every response carries exactly the requested
`page_size` entries (as long as enough matches remain) in server order, and a
next-cursor header exactly while more matches remain. The cursor is the
offset of the first unserved record. -/
def listServer (all : List α) : CursorServer α Nat where
  respond := fun cursor page_size =>
    let off := cursor.getD 0
    ((all.drop off).take page_size,
      if off + page_size < all.length then some (off + page_size) else none)

/-- The remote side of the page-number protocol used by
`ToolServiceVariableBaseQuery.get`: given `page_size` and `page_num` it
answers with the page's item list (`response.json()['items']` in the JSON
format path). -/
def PageServer (α : Type) := Nat → Nat → List α

/-- The loop of `ToolServiceVariableBaseQuery.get`
(`while len(results) < limit: ...`): the condition is checked before each
request; an empty page breaks out of the loop; otherwise the results are
extended and the page counter is incremented. `reqs` is instrumentation
recording every `(page_size, page_num)` request issued. -/
def tsvGetAux (server : PageServer α) (limit page_size : Nat) (page : Nat)
    (acc : List α) (reqs : List (Nat × Nat)) : List α × List (Nat × Nat) :=
  if h : acc.length < limit then
    if hl : (server page_size page).length = 0 then
      (acc, reqs ++ [(page_size, page)])
    else
      tsvGetAux server limit page_size (page + 1) (acc ++ server page_size page)
        (reqs ++ [(page_size, page)])
  else
    (acc, reqs)
termination_by limit - acc.length
decreasing_by
  simp only [List.length_append]
  omega

/-- Embeds `ToolServiceVariableBaseQuery.get(limit)` (JSON format path), instrumented
with the list of `(page_size, page_num)` requests:
`page_size = min(limit, 2000)` is computed once, and the page counter starts
at 1. -/
def tsvGet (server : PageServer α) (limit : Nat) :
    List α × List (Nat × Nat) :=
  tsvGetAux server limit (min limit 2000) 1 [] []

/-- The sort keys accepted by `GranuleQuery.sort_key`. -/
def valid_sort_keys : List String :=
  ["campaign", "entry_title", "dataset_id", "data_size", "end_date",
   "granule_ur", "producer_granule_id", "project", "provider",
   "readable_granule_name", "short_name", "start_date", "version",
   "platform", "instrument", "sensor", "day_night_flag", "online_only",
   "browsable", "browse_only", "cloud_cover", "revision_date"]

/-- The current `temporal` list in the parameter store (empty when unset),
as read by `GranuleCollectionBaseQuery.temporal` before appending. -/
def temporalList (p : Params) : List String :=
  match dictGet p "temporal" with
  | some (.l xs) => xs
  | _ => []

/-- One call to a public filter-builder method of a granule or collection
query, carrying the method's arguments. Arguments whose only role is to be
transformed into a stored string before any dictionary access (datetime
ranges, `urllib.parse.quote`d titles, numeric orbit ranges) are carried in
their already-serialized form, since no claim depends on that
transformation. -/
inductive Op where
  | concept_id (ids : List String)
  | provider (s : String)
  | online_only (b : Bool)
  | temporal (range : String)
  | short_name (s : String)
  | version (s : String)
  | point (lon lat : ℚ)
  | circle (lon lat dist : FloatLike)
  | polygon (coords : List (ℚ × ℚ))
  | bounding_box (lll llat url ulat : ℚ)
  | line (coords : List (ℚ × ℚ))
  | downloadable (b : Bool)
  | entry_title (quoted : String)
  | orbit_number (serialized : String)
  | day_night_flag (v : String)
  | cloud_cover (min_cover max_cover : FloatLike)
  | instrument (s : String)
  | platform (s : String)
  | sort_key (s : String)
  | granule_ur (s : String)
  | readable_granule_name (names : List String)
  | archive_center (s : String)
  | keyword (s : String)
  | native_id (ids : List String)
  | tool_concept_id (ids : List String)
  | service_concept_id (ids : List String)

/-- The effect of one builder call on the parameter store. A call that raises
(invalid argument) leaves the store unchanged, as does an early
`if not arg: return self` branch; a successful call performs the source's
dictionary writes. Option-map writes (`temporal` boundary exclusion,
`readable_granule_name` pattern flag) live in `self.options`, not in
`self.params`, and are therefore not part of this map. -/
def applyOp (p : Params) : Op → Params
  | .concept_id ids => dictSet p "concept_id" (.l ids)
  | .provider s => if s = "" then p else dictSet p "provider" (.s s)
  | .online_only b =>
      dictSet (dictDel p "downloadable") "online_only" (.b b)
  | .temporal range =>
      dictSet p "temporal" (.l (temporalList p ++ [range]))
  | .short_name s => if s = "" then p else dictSet p "short_name" (.s s)
  | .version s => if s = "" then p else dictSet p "version" (.s s)
  | .point lon lat =>
      dictSet p "point" (.s (floatStr lon ++ "," ++ floatStr lat))
  | .circle lon lat dist =>
      dictSet p "circle"
        (.s (lon.repr ++ "," ++ lat.repr ++ "," ++ dist.repr))
  | .polygon coords =>
      match polygon coords with
      | .ok (some s) => dictSet p "polygon" (.s s)
      | _ => p
  | .bounding_box lll llat url ulat =>
      dictSet p "bounding_box"
        (.s (joinSep "," ([lll, llat, url, ulat].map floatStr)))
  | .line coords =>
      match coords with
      | [] => p
      | _ =>
        if coords.length < 2 then p
        else
          dictSet p "line"
            (.s (joinSep ","
              (((coords.map (fun q => [q.1, q.2])).flatten).map floatStr)))
  | .downloadable b =>
      dictSet (dictDel p "online_only") "downloadable" (.b b)
  | .entry_title quoted => dictSet p "entry_title" (.s quoted)
  | .orbit_number serialized => dictSet p "orbit_number" (.s serialized)
  | .day_night_flag v =>
      if v.toLower ∈ ["day", "night", "unspecified"] then
        dictSet p "day_night_flag" (.s v.toLower)
      else p
  | .cloud_cover min_cover max_cover =>
      match cloud_cover min_cover max_cover with
      | .ok s => dictSet p "cloud_cover" (.s s)
      | .error _ => p
  | .instrument s => if s = "" then p else dictSet p "instrument" (.s s)
  | .platform s => if s = "" then p else dictSet p "platform" (.s s)
  | .sort_key s =>
      if (⟨s.data.dropWhile (fun c => c = '-')⟩ : String) ∈ valid_sort_keys
      then dictSet p "sort_key" (.s s)
      else p
  | .granule_ur s => if s = "" then p else dictSet p "granule_ur" (.s s)
  | .readable_granule_name names =>
      dictSet p "readable_granule_name" (.l names)
  | .archive_center s =>
      if s = "" then p else dictSet p "archive_center" (.s s)
  | .keyword s => if s = "" then p else dictSet p "keyword" (.s s)
  | .native_id ids => dictSet p "native_id" (.l ids)
  | .tool_concept_id ids =>
      if ids.all (fun i => (i.trim.data.take 1) = ['T']) then
        dictSet p "tool_concept_id" (.l ids)
      else p
  | .service_concept_id ids =>
      if ids.all (fun i => (i.trim.data.take 1) = ['S']) then
        dictSet p "service_concept_id" (.l ids)
      else p

/-- The parameter store reached from a fresh query (`self.params = {}`) by a
sequence of builder calls. -/
def runOps (ops : List Op) : Params :=
  ops.foldl applyOp []

/-- Stated from the amended claim C5: `cloud_cover` raises exactly when both
bounds are falsy, or both bounds are truthy and either one is not
float-coercible or the coerced minimum exceeds the coerced maximum. This is a
separate decision procedure, to be compared against the embedded
`cloud_cover`. -/
def cloud_cover_error_spec (min_cover max_cover : FloatLike) : Bool :=
  (!min_cover.truthy && !max_cover.truthy) ||
  (min_cover.truthy && max_cover.truthy &&
    match min_cover.toFloat, max_cover.toFloat with
    | some a, some b => a > b
    | _, _ => true)

/-- The invariant of claim C9: the parameter store never holds both the
`online_only` and the `downloadable` key. -/
def flagsOk (p : Params) : Prop :=
  ¬(hasKey p "online_only" = true ∧ hasKey p "downloadable" = true)

/-- No character of the list is `T` or `F` (in particular the list cannot
contain `"True"` or `"False"` as a contiguous substring). -/
def noTF (l : List Char) : Prop :=
  ∀ c ∈ l, c ≠ 'T' ∧ c ≠ 'F'

instance (l : List Char) : Decidable (noTF l) :=
  inferInstanceAs (Decidable (∀ c ∈ l, c ≠ 'T' ∧ c ≠ 'F'))

/-- Every filter name and every string datum stored in the parameter store
avoids the characters `T` and `F`. Boolean values are unconstrained — their
serialization is what claim C10 is about. -/
def paramsNoTF (params : Params) : Prop :=
  ∀ kv ∈ params, noTF kv.1.data ∧
    (match kv.2 with
     | .s s => noTF s.data
     | .b _ => True
     | .l elems => ∀ e ∈ elems, noTF e.data)

/-- Every parameter name and option name in the options map avoids the
characters `T` and `F` (option values are checked to be booleans by
`_build_url` itself). -/
def optionsNoTF (options : Options) : Prop :=
  ∀ po ∈ options, noTF po.1.data ∧ ∀ ov ∈ po.2, noTF ov.1.data

/-- Claim C1 (code behaviour at the failing input): a granule query whose
parameter store holds only a `circle` spatial filter and no collection-scoping
filter is judged valid by `GranuleQuery._valid_state` — because the source's
`spatial_keys` list omits `"circle"` — and `_build_url` therefore builds and
returns a URL instead of raising. The claim (and the source's own comment
"spatial params must be paired with a collection limiting parameter" together
with the intent of `test_invalid_spatial_state`) says this query must be
reported invalid. -/
theorem C1_circle_only_is_accepted :
    granule_valid_state [("circle", Value.s "10.0,15.1,1000.0")] = true ∧
    build_url granule_valid_state
        "https://cmr.earthdata.nasa.gov/search/granules" "json"
        [("circle", Value.s "10.0,15.1,1000.0")] [] =
      .ok "https://cmr.earthdata.nasa.gov/search/granules.json?circle=10.0,15.1,1000.0" :=
  ⟨rfl, rfl⟩

/-- Claim C4 (code behaviour at the failing input): `token` and `bearer_token`
assign a brand-new one-entry dict to `self.headers`, so a pre-existing header
`foo: bar` is dropped rather than left unchanged — contradicting the claim and
the repository's own tests (`test_token_does_not_clobber_other_headers`,
`test_bearer_token_adds_header`), which require `headers["foo"]` to survive. -/
theorem C4_token_replaces_entire_headers :
    token [("foo", "bar")] "token" = [("Authorization", "token")] ∧
    headersGet (token [("foo", "bar")] "token") "foo" = none ∧
    bearer_token [("foo", "bar")] "bearertoken" =
      [("Authorization", "Bearer bearertoken")] ∧
    headersGet (bearer_token [("foo", "bar")] "bearertoken") "foo" = none :=
  ⟨rfl, rfl, rfl, rfl⟩

/-- Claim C5, counterexample: calling `cloud_cover` with both bounds equal to
the Python int `0` — both bounds provided, numeric, and satisfying
`min_cover <= max_cover` — raises (`0` is falsy, so the source's
`if not min_cover and not max_cover` guard fires), while the claim says every
such two-argument call succeeds storing `"0,0"`. -/
theorem C5_counterexample_zero_bounds :
    pyZero.toFloat = some 0 ∧ (0 : ℚ) ≤ 0 ∧
    (cloud_cover pyZero pyZero).isOk = false :=
  ⟨rfl, le_refl 0, rfl⟩

/-- Claim C5 as amended: `cloud_cover` raises iff both bounds are falsy
(such as `0` or an empty string), or both are truthy and a bound fails float
coercion or the coerced minimum exceeds the coerced maximum; every other call
stores the verbatim serialization `"<min>,<max>"`. (The original claim's
"provided" becomes "truthy": a provided-but-falsy bound such as `0` counts as
missing, so `cloud_cover(0, 0)` errors and `cloud_cover("abc", 0)` or
`cloud_cover(5, 0)` succeed unvalidated.) -/
theorem C5_cloud_cover_characterization (m M : FloatLike) :
    (cloud_cover m M).toOption =
      if cloud_cover_error_spec m M = true then none
      else some (m.repr ++ "," ++ M.repr) := by
  unfold cloud_cover cloud_cover_error_spec
  cases hmt : m.truthy <;> cases hMt : M.truthy <;>
    rcases hm : m.toFloat with _ | a <;> rcases hM : M.toFloat with _ | b <;>
      simp [hmt, hMt, hm, hM, Except.toOption] <;>
        split_ifs <;> simp_all [Except.toOption]

/-- Claim C6, counterexample: the empty coordinate sequence has fewer than 4
coordinate pairs, yet `polygon([])` does not fail — the source's
`if not coordinates: return self` branch silently ignores it (no parameter is
stored and no error is raised), while the claim says every sequence with
fewer than 4 pairs fails with a domain error. -/
theorem C6_counterexample_empty_polygon :
    polygon ([] : List (ℚ × ℚ)) = .ok none ∧
    (polygon ([] : List (ℚ × ℚ))).isOk = true :=
  ⟨rfl, rfl⟩

/-- Claim C6 as amended: an *empty* coordinate sequence is silently ignored
(the call succeeds without storing anything); a non-empty sequence with fewer
than 4 pairs fails; a sequence of at least 4 pairs whose first pair differs
from its last pair fails; and a sequence of at least 4 pairs whose first pair
equals its last pair succeeds, storing the flat comma-joined sequence of the
float-converted coordinates. -/
theorem C6_polygon_characterization :
    polygon ([] : List (ℚ × ℚ)) = .ok none ∧
    (∀ c : List (ℚ × ℚ), c ≠ [] → c.length < 4 → (polygon c).isOk = false) ∧
    (∀ (c : List (ℚ × ℚ)) (p0 pn : ℚ × ℚ), c.head? = some p0 →
      c.getLast? = some pn → 4 ≤ c.length → p0 ≠ pn →
      (polygon c).isOk = false) ∧
    (∀ (c : List (ℚ × ℚ)) (p0 : ℚ × ℚ), c.head? = some p0 →
      c.getLast? = some p0 → 4 ≤ c.length →
      polygon c = .ok (some (joinSep ","
        (((c.map (fun q => [q.1, q.2])).flatten).map floatStr)))) := by
  refine ⟨rfl, ?_, ?_, ?_⟩
  · intro c hne hlt
    match c, hne with
    | (lon0, lat0) :: rest, _ =>
      simp only [polygon]
      rw [if_pos hlt]
      rfl
  · intro c p0 pn hhead hlast hlen hne
    match c with
    | (lon0, lat0) :: rest =>
      have hp0 : p0 = (lon0, lat0) := by
        simpa using hhead.symm
      have hlast' : ((lon0, lat0) :: rest).getLast? =
          some (rest.getLast?.getD (lon0, lat0)) := by
        rw [List.getLast?_cons]
      have hpn : pn = rest.getLast?.getD (lon0, lat0) := by
        rw [hlast'] at hlast
        exact (Option.some_inj.mp hlast).symm
      simp only [polygon]
      rw [if_neg (show ¬((lon0, lat0) :: rest).length < 4 by omega)]
      have hcond : lon0 ≠ (rest.getLast?.getD (lon0, lat0)).1 ∨
          lat0 ≠ (rest.getLast?.getD (lon0, lat0)).2 := by
        by_contra hc
        push_neg at hc
        apply hne
        rw [hp0, hpn]
        exact Prod.ext_iff.mpr ⟨hc.1, hc.2⟩
      rw [if_pos hcond]
      rfl
  · intro c p0 hhead hlast hlen
    match c with
    | (lon0, lat0) :: rest =>
      have hp0 : p0 = (lon0, lat0) := by
        simpa using hhead.symm
      have hlast' : ((lon0, lat0) :: rest).getLast? =
          some (rest.getLast?.getD (lon0, lat0)) := by
        rw [List.getLast?_cons]
      have hpn : (lon0, lat0) = rest.getLast?.getD (lon0, lat0) := by
        rw [hlast'] at hlast
        rw [hp0] at hlast
        exact Option.some_inj.mp hlast.symm
      simp only [polygon]
      rw [if_neg (show ¬((lon0, lat0) :: rest).length < 4 by omega)]
      rw [if_neg (by push_neg; exact ⟨by rw [← hpn], by rw [← hpn]⟩)]

/-- Witness for the amended claim C6, instantiating the failure conjunct at a
2-point open sequence and the success conjunct at a closed 4-point square. -/
theorem C6_polygon_characterization_witness :
    (polygon [((0 : ℚ), (0 : ℚ)), (1, 0)]).isOk = false ∧
    polygon [((0 : ℚ), (0 : ℚ)), (1, 0), (1, 1), (0, 0)] =
      .ok (some (joinSep ","
        ((([((0 : ℚ), (0 : ℚ)), (1, 0), (1, 1), (0, 0)].map
          (fun q => [q.1, q.2])).flatten).map floatStr))) :=
  ⟨C6_polygon_characterization.2.1 _ (List.cons_ne_nil _ _) (by decide),
   C6_polygon_characterization.2.2.2 _ ((0 : ℚ), (0 : ℚ)) rfl rfl (by decide)⟩

/-- A literal pattern matches at the current position exactly when the literal
is a prefix of the text. -/
theorem matchHere_litPat (s t : List Char) :
    matchHere (s.map PatTok.lit) t = true ↔ s <+: t := by
  induction s generalizing t with
  | nil => simp [matchHere]
  | cons c cs ih =>
    cases t with
    | nil => simp [matchHere]
    | cons d ds =>
      rw [List.cons_prefix_cons]
      simp only [List.map, matchHere, tokMatch, Bool.and_eq_true,
        decide_eq_true_eq, ih]

/-- Searching with a literal pattern (`re.search`) is exactly substring containment. -/
theorem searchPat_litPat (s : String) (t : List Char) :
    searchPat (litPat s) t = true ↔ s.data <:+: t := by
  unfold searchPat litPat
  rw [List.any_eq_true]
  constructor
  · rintro ⟨u, hu, hm⟩
    rw [List.mem_tails] at hu
    exact List.infix_iff_prefix_suffix.mpr ⟨u, (matchHere_litPat _ _).mp hm, hu⟩
  · intro h
    obtain ⟨u, hpre, hsuf⟩ := List.infix_iff_prefix_suffix.mp h
    exact ⟨u, (List.mem_tails _ _).mpr hsuf, (matchHere_litPat _ _).mpr hpre⟩

/-- Claim C7: for every non-empty requested format, `Query.format` succeeds
(storing the requested string verbatim) exactly when one of the allowed format
names occurs *somewhere inside* the requested string (`re.search`, not exact
equality); consequently strings outside the enumerated format set are
accepted, e.g. `"foojson"`, which merely contains `"json"`. -/
theorem C7_format_accepts_by_substring_search :
    (∀ f : String, f ≠ "" →
      (pyFormat valid_formats_regex f = .ok f ↔
        ∃ s ∈ baseFormatNames, s.data <:+: f.data)) ∧
    pyFormat valid_formats_regex "foojson" = .ok "foojson" ∧
    "foojson" ∉ baseFormatNames := by
  refine ⟨?_, rfl, by decide⟩
  intro f hf
  have hiff : ((baseFormatNames.map litPat).any
      (fun p => searchPat p f.data) = true) ↔
      ∃ s ∈ baseFormatNames, s.data <:+: f.data := by
    rw [List.any_eq_true]
    constructor
    · rintro ⟨p, hp, hsearch⟩
      obtain ⟨s, hs, rfl⟩ := List.mem_map.mp hp
      exact ⟨s, hs, (searchPat_litPat s f.data).mp hsearch⟩
    · rintro ⟨s, hs, hinf⟩
      exact ⟨litPat s, List.mem_map.mpr ⟨s, hs, rfl⟩,
        (searchPat_litPat s f.data).mpr hinf⟩
  unfold pyFormat valid_formats_regex
  simp only [hf, if_false]
  rcases hany : (baseFormatNames.map litPat).any
      (fun p => searchPat p f.data) with _ | _
  · rw [if_neg Bool.false_ne_true]
    exact iff_of_false (by intro hc; exact Except.noConfusion hc)
      (fun hex => absurd (hiff.mpr hex) (by rw [hany]; exact Bool.false_ne_true))
  · rw [if_pos rfl]
    exact iff_of_true rfl (hiff.mp hany)

/-- Witness for claim C7, instantiating the iff at the format `"csv"`. -/
theorem C7_format_accepts_by_substring_search_witness :
    pyFormat valid_formats_regex "csv" = .ok "csv" ↔
      ∃ s ∈ baseFormatNames, s.data <:+: "csv".data :=
  C7_format_accepts_by_substring_search.1 "csv" (by decide)

/-- Claim C8: `_valid_formats_regex` is one class-level list on `Query`,
shared by every query class (none of the subclasses defines its own, and their
constructors call `extend` on it, mutating the shared list in place —
`extendFormats` maps the shared list across one such constructor run).
Consequently: before any such constructor runs, `format("dif")` is rejected;
after a single run of any of the `CollectionQuery` / `ToolQuery` /
`ServiceQuery` / `VariableQuery` constructors, all the extra formats —
including the versioned `umm_json_v1_9` — are accepted by `format()` reading
the shared list (hence by every query instance of every kind, `GranuleQuery`
included); and a second constructor run appends duplicate entries. -/
theorem C8_shared_format_list_extended_in_place :
    (pyFormat valid_formats_regex "dif").isOk = false ∧
    pyFormat (extendFormats valid_formats_regex) "dif" = .ok "dif" ∧
    pyFormat (extendFormats valid_formats_regex) "dif10" = .ok "dif10" ∧
    pyFormat (extendFormats valid_formats_regex) "opendata" = .ok "opendata" ∧
    pyFormat (extendFormats valid_formats_regex) "umm_json" = .ok "umm_json" ∧
    pyFormat (extendFormats valid_formats_regex) "umm_json_v1_9" =
      .ok "umm_json_v1_9" ∧
    (extendFormats valid_formats_regex).count (litPat "dif") = 1 ∧
    (extendFormats (extendFormats valid_formats_regex)).count
      (litPat "dif") = 2 :=
  ⟨rfl, rfl, rfl, rfl, rfl, rfl, by decide, by decide⟩

/-- A key is present after `d[k] = v` exactly when it was present before or it
is `k`. -/
theorem hasKey_dictSet (p : Params) (k x : String) (v : Value) :
    hasKey (dictSet p k v) x = true ↔ hasKey p x = true ∨ x = k := by
  unfold hasKey dictSet
  by_cases hin : p.any (fun kv => kv.1 = k)
  · rw [if_pos hin, List.any_map, List.any_eq_true, List.any_eq_true]
    simp only [Function.comp, decide_eq_true_eq]
    constructor
    · rintro ⟨kv, hmem, hpred⟩
      by_cases hk : kv.1 = k
      · rw [if_pos hk] at hpred
        exact Or.inr hpred.symm
      · rw [if_neg hk] at hpred
        exact Or.inl ⟨kv, hmem, hpred⟩
    · rintro (⟨kv, hmem, hpred⟩ | rfl)
      · by_cases hk : kv.1 = k
        · exact ⟨kv, hmem, by rw [if_pos hk]; exact hk.symm.trans hpred⟩
        · exact ⟨kv, hmem, by rw [if_neg hk]; exact hpred⟩
      · obtain ⟨kv₀, hmem₀, hk₀⟩ := List.any_eq_true.mp hin
        simp only [decide_eq_true_eq] at hk₀
        exact ⟨kv₀, hmem₀, by rw [if_pos hk₀]⟩
  · rw [if_neg hin, List.any_append]
    simp only [List.any_cons, List.any_nil, Bool.or_false, Bool.or_eq_true,
      decide_eq_true_eq]
    exact or_congr Iff.rfl eq_comm

/-- A key is present after `del d[k]` exactly when it was present before and
differs from `k`. -/
theorem hasKey_dictDel (p : Params) (k x : String) :
    hasKey (dictDel p k) x = true ↔ hasKey p x = true ∧ x ≠ k := by
  unfold hasKey dictDel
  rw [List.any_eq_true, List.any_eq_true]
  constructor
  · rintro ⟨kv, hmem, hx⟩
    rw [List.mem_filter] at hmem
    simp only [decide_eq_true_eq] at hx
    have hne : kv.1 ≠ k := by simpa using hmem.2
    exact ⟨⟨kv, hmem.1, by simp [hx]⟩, by rw [← hx]; exact hne⟩
  · rintro ⟨⟨kv, hmem, hx⟩, hne⟩
    simp only [decide_eq_true_eq] at hx
    exact ⟨kv, List.mem_filter.mpr ⟨hmem, by simp [hx, hne]⟩, by simp [hx]⟩

/-- Setting a key other than the two availability flags preserves the
exclusivity invariant. -/
theorem flagsOk_dictSet_other (p : Params) (k : String) (v : Value)
    (hk1 : k ≠ "online_only") (hk2 : k ≠ "downloadable") (hp : flagsOk p) :
    flagsOk (dictSet p k v) := by
  rintro ⟨h1, h2⟩
  rw [hasKey_dictSet] at h1 h2
  rcases h1 with h1 | h1
  · rcases h2 with h2 | h2
    · exact hp ⟨h1, h2⟩
    · exact hk2 h2.symm
  · exact hk1 h1.symm

/-- Calling `online_only()` establishes the invariant outright: it deletes
`downloadable` and sets `online_only`. -/
theorem flagsOk_online_only (p : Params) (b : Bool) :
    flagsOk (dictSet (dictDel p "downloadable") "online_only" (.b b)) := by
  rintro ⟨_, h2⟩
  rw [hasKey_dictSet] at h2
  rcases h2 with h2 | h2
  · exact ((hasKey_dictDel p "downloadable" "downloadable").mp h2).2 rfl
  · exact absurd h2 (by decide)

/-- Calling `downloadable()` establishes the invariant outright: it deletes
`online_only` and sets `downloadable`. -/
theorem flagsOk_downloadable (p : Params) (b : Bool) :
    flagsOk (dictSet (dictDel p "online_only") "downloadable" (.b b)) := by
  rintro ⟨h1, _⟩
  rw [hasKey_dictSet] at h1
  rcases h1 with h1 | h1
  · exact ((hasKey_dictDel p "online_only" "online_only").mp h1).2 rfl
  · exact absurd h1 (by decide)

/-- Every builder call preserves the exclusivity invariant. -/
theorem flagsOk_applyOp (p : Params) (op : Op) (hp : flagsOk p) :
    flagsOk (applyOp p op) := by
  cases op <;> simp only [applyOp] <;>
    first
      | exact flagsOk_online_only _ _
      | exact flagsOk_downloadable _ _
      | exact flagsOk_dictSet_other _ _ _ (by decide) (by decide) hp
      | (split <;>
          first
            | exact hp
            | exact flagsOk_dictSet_other _ _ _ (by decide) (by decide) hp
            | (split <;>
                first
                  | exact hp
                  | exact flagsOk_dictSet_other _ _ _ (by decide) (by decide)
                      hp))

/-- Claim C9: in every parameter store reachable through the public
filter-builder operations, at most one of `online_only` and `downloadable` is
present; moreover `downloadable()` followed by `online_only()` leaves only
`online_only` set (of the two), and symmetrically. -/
theorem C9_online_only_downloadable_mutually_exclusive :
    (∀ ops : List Op, ¬(hasKey (runOps ops) "online_only" = true ∧
      hasKey (runOps ops) "downloadable" = true)) ∧
    (∀ (p : Params) (b b' : Bool),
      hasKey (applyOp (applyOp p (Op.downloadable b)) (Op.online_only b'))
          "online_only" = true ∧
      hasKey (applyOp (applyOp p (Op.downloadable b)) (Op.online_only b'))
          "downloadable" = false) ∧
    (∀ (p : Params) (b b' : Bool),
      hasKey (applyOp (applyOp p (Op.online_only b)) (Op.downloadable b'))
          "downloadable" = true ∧
      hasKey (applyOp (applyOp p (Op.online_only b)) (Op.downloadable b'))
          "online_only" = false) := by
  have main : ∀ (ops : List Op) (p : Params),
      flagsOk p → flagsOk (ops.foldl applyOp p) := by
    intro ops
    induction ops with
    | nil => intro p hp; exact hp
    | cons o os ih => intro p hp; exact ih _ (flagsOk_applyOp p o hp)
  refine ⟨fun ops => main ops [] ?_, fun p b b' => ⟨?_, ?_⟩,
    fun p b b' => ⟨?_, ?_⟩⟩
  · rintro ⟨h1, _⟩
    exact absurd h1 (by decide)
  · exact (hasKey_dictSet _ _ _ _).mpr (Or.inr rfl)
  · simp only [applyOp]
    refine Bool.eq_false_iff.mpr (fun h => ?_)
    rw [hasKey_dictSet] at h
    rcases h with h | h
    · exact ((hasKey_dictDel _ _ _).mp h).2 rfl
    · exact absurd h (by decide)
  · exact (hasKey_dictSet _ _ _ _).mpr (Or.inr rfl)
  · simp only [applyOp]
    refine Bool.eq_false_iff.mpr (fun h => ?_)
    rw [hasKey_dictSet] at h
    rcases h with h | h
    · exact ((hasKey_dictDel _ _ _).mp h).2 rfl
    · exact absurd h (by decide)

/-- The predicate `noTF` distributes over list append. -/
theorem noTF_append {a b : List Char} : noTF (a ++ b) ↔ noTF a ∧ noTF b := by
  simp only [noTF, List.mem_append, or_imp, forall_and]
  tauto

/-- The predicate `noTF` distributes over string append. -/
theorem noTF_strAppend {a b : String} (ha : noTF a.data) (hb : noTF b.data) :
    noTF (a ++ b).data := by
  rw [String.data_append]
  exact noTF_append.mpr ⟨ha, hb⟩

/-- Joining with a separator (`str.join`) preserves `noTF`. -/
theorem noTF_joinSep (sep : String) (hsep : noTF sep.data) :
    ∀ L : List String, (∀ x ∈ L, noTF x.data) → noTF (joinSep sep L).data
  | [], _ => by intro c hc; simp [joinSep] at hc
  | [x], h => by simpa [joinSep] using h x (by simp)
  | x :: y :: xs, h => by
    simp only [joinSep]
    exact noTF_strAppend (noTF_strAppend (h x (by simp)) hsep)
      (noTF_joinSep sep hsep (y :: xs) (fun z hz => h z (by simp [hz])))

/-- The serialized pieces of one parameter entry stay `noTF` when the key and
the string data do; a boolean value contributes only lowercase
`true`/`false`. -/
theorem noTF_formatParam (kv : String × Value) (hk : noTF kv.1.data)
    (hv : match kv.2 with
          | .s s => noTF s.data
          | .b _ => True
          | .l elems => ∀ e ∈ elems, noTF e.data) :
    ∀ x ∈ formatParam kv, noTF x.data := by
  obtain ⟨k, v⟩ := kv
  cases v with
  | s s =>
    intro x hx
    simp only [formatParam, List.mem_singleton] at hx
    subst hx
    exact noTF_strAppend (noTF_strAppend hk (by decide)) hv
  | b b =>
    intro x hx
    simp only [formatParam, List.mem_singleton] at hx
    subst hx
    cases b
    · exact noTF_strAppend (noTF_strAppend hk (by decide)) (by decide)
    · exact noTF_strAppend (noTF_strAppend hk (by decide)) (by decide)
  | l elems =>
    intro x hx
    simp only [formatParam, List.mem_map] at hx
    obtain ⟨e, he, rfl⟩ := hx
    exact noTF_strAppend (noTF_strAppend hk (by decide)) (hv e he)

/-- The serialized option entries of one parameter stay `noTF`. -/
theorem noTF_formatOptionsOf (pk : String) (hpk : noTF pk.data) :
    ∀ (opts : List (String × Value)) (l : List String),
      formatOptionsOf pk opts = .ok l → (∀ ov ∈ opts, noTF ov.1.data) →
      ∀ x ∈ l, noTF x.data := by
  intro opts
  induction opts with
  | nil =>
    intro l hl _ x hx
    simp only [formatOptionsOf] at hl
    injection hl with hl
    subst hl
    simp at hx
  | cons ov rest ih =>
    obtain ⟨okey, v⟩ := ov
    intro l hl hno x hx
    cases v with
    | s s => exact absurd hl (by simp [formatOptionsOf])
    | l elems => exact absurd hl (by simp [formatOptionsOf])
    | b b =>
      simp only [formatOptionsOf] at hl
      cases hrec : formatOptionsOf pk rest with
      | error e => rw [hrec] at hl; exact absurd hl (by simp)
      | ok tail =>
        rw [hrec] at hl
        injection hl with hl
        subst hl
        rcases List.mem_cons.mp hx with rfl | hx
        · have hok : noTF okey.data := by simpa using (hno (okey, .b b) (by simp))
          cases b
          · exact noTF_strAppend (noTF_strAppend (noTF_strAppend
              (noTF_strAppend (noTF_strAppend (by decide) hpk) (by decide))
              hok) (by decide)) (by decide)
          · exact noTF_strAppend (noTF_strAppend (noTF_strAppend
              (noTF_strAppend (noTF_strAppend (by decide) hpk) (by decide))
              hok) (by decide)) (by decide)
        · exact ih tail hrec (fun q hq => hno q (by simp [hq])) x hx

/-- The serialized options map stays `noTF`. -/
theorem noTF_formatOptions :
    ∀ (os : Options) (l : List String), formatOptions os = .ok l →
      optionsNoTF os → ∀ x ∈ l, noTF x.data := by
  intro os
  induction os with
  | nil =>
    intro l hl _ x hx
    simp only [formatOptions] at hl
    injection hl with hl
    subst hl
    simp at hx
  | cons po rest ih =>
    obtain ⟨pk, opts⟩ := po
    intro l hl hno x hx
    simp only [formatOptions] at hl
    cases h1 : formatOptionsOf pk opts with
    | error e => rw [h1] at hl; exact absurd hl (by simp)
    | ok here =>
      cases h2 : formatOptions rest with
      | error e => rw [h1, h2] at hl; exact absurd hl (by simp)
      | ok tail =>
        rw [h1, h2] at hl
        injection hl with hl
        subst hl
        rcases List.mem_append.mp hx with hx | hx
        · exact noTF_formatOptionsOf pk
            (by simpa using (hno (pk, opts) (by simp)).1) opts here h1
            (fun ov hov => (hno (pk, opts) (by simp)).2 ov hov) x hx
        · exact ih tail h2 (fun q hq => hno q (by simp [hq])) x hx

/-- Stripping trailing `&` preserves `noTF`. -/
theorem noTF_rstripAmp {s : String} (h : noTF s.data) :
    noTF (rstripAmp s).data := by
  intro c hc
  apply h
  simp only [rstripAmp] at hc
  rw [List.mem_reverse] at hc
  have hc' : c ∈ s.data.reverse := (List.dropWhile_sublist _).subset hc
  rwa [List.mem_reverse] at hc'

/-- Claim C10, counterexample: the state reached by `short_name("True")` is
reachable through a public filter builder and perfectly valid, yet the built
request target contains the substring `True` — `_build_url` interpolates
string parameter values verbatim; only *boolean* values are lowercased. -/
theorem C10_counterexample_string_value_True :
    build_url granule_valid_state
        "https://cmr.earthdata.nasa.gov/search/granules" "json"
        [("short_name", Value.s "True")] [] =
      .ok "https://cmr.earthdata.nasa.gov/search/granules.json?short_name=True" ∧
    "True".data <:+:
      "https://cmr.earthdata.nasa.gov/search/granules.json?short_name=True".data :=
  ⟨rfl, ⟨"https://cmr.earthdata.nasa.gov/search/granules.json?short_name=".data,
    [], by decide⟩⟩

/-- Claim C10 as amended: every boolean parameter value and boolean option
value serializes as lowercase `true`/`false`, so the built request target
contains neither `True` nor `False` *provided* the interpolated raw data —
base URL, format token, filter names and string/list parameter values, and
option names — contain no `T`/`F` character (string values are copied into
the target verbatim, so a value such as `"True"` would appear verbatim). -/
theorem C10_built_url_has_no_True_False
    (vs : Params → Bool) (base fmt : String) (params : Params)
    (options : Options) (u : String)
    (hbase : noTF base.data) (hfmt : noTF fmt.data)
    (hparams : paramsNoTF params) (hoptions : optionsNoTF options)
    (hok : build_url vs base fmt params options = .ok u) :
    ¬("True".data <:+: u.data) ∧ ¬("False".data <:+: u.data) := by
  have hu : noTF u.data := by
    unfold build_url at hok
    split at hok
    · exact absurd hok (by simp)
    · cases hfo : formatOptions options with
      | error e => rw [hfo] at hok; exact absurd hok (by simp)
      | ok fo =>
        rw [hfo] at hok
        injection hok with hok
        subst hok
        apply noTF_rstripAmp
        refine noTF_strAppend (noTF_strAppend (noTF_strAppend (noTF_strAppend
          (noTF_strAppend (noTF_strAppend hbase (by decide)) hfmt)
          (by decide)) ?_) (by decide)) ?_
        · refine noTF_joinSep "&" (by decide) _ ?_
          intro x hx
          rw [List.mem_flatten] at hx
          obtain ⟨piece, hpiece, hxp⟩ := hx
          rw [List.mem_map] at hpiece
          obtain ⟨kv, hkv, rfl⟩ := hpiece
          exact noTF_formatParam kv (hparams kv hkv).1 (hparams kv hkv).2 x hxp
        · exact noTF_joinSep "&" (by decide) fo
            (noTF_formatOptions options fo hfo hoptions)
  refine ⟨fun hinf => ?_, fun hinf => ?_⟩
  · exact (hu 'T' (hinf.sublist.subset (by decide))).1 rfl
  · exact (hu 'F' (hinf.sublist.subset (by decide))).2 rfl

/-- Witness for the amended claim C10 at a concrete granule query carrying a
string filter, a boolean filter and a boolean option. -/
theorem C10_built_url_has_no_True_False_witness :
    ¬("True".data <:+:
      "https://cmr.earthdata.nasa.gov/search/granules.json?short_name=MOD02QKM&downloadable=true&options[temporal][exclude_boundary]=true".data) ∧
    ¬("False".data <:+:
      "https://cmr.earthdata.nasa.gov/search/granules.json?short_name=MOD02QKM&downloadable=true&options[temporal][exclude_boundary]=true".data) :=
  C10_built_url_has_no_True_False granule_valid_state
    "https://cmr.earthdata.nasa.gov/search/granules" "json"
    [("short_name", Value.s "MOD02QKM"), ("downloadable", Value.b true)]
    [("temporal", [("exclude_boundary", Value.b true)])] _
    (by decide) (by decide)
    (by
      intro kv hkv
      simp only [List.mem_cons, List.not_mem_nil, or_false] at hkv
      rcases hkv with rfl | rfl
      · exact ⟨by decide, by decide⟩
      · exact ⟨by decide, trivial⟩)
    (by
      intro po hpo
      simp only [List.mem_cons, List.not_mem_nil, or_false] at hpo
      subst hpo
      refine ⟨by decide, ?_⟩
      intro ov hov
      simp only [List.mem_cons, List.not_mem_nil, or_false] at hov
      subst hov
      exact (by decide))
    rfl

/-- Invariant of the offset/page-number retrieval loop. For any starting
state, the loop appends requests `(ps, page), (ps, page+1), ...` in order, the
accumulated results only grow, the final length is bounded by
`max acc.length (limit - 1 + ps)` whenever every page holds at most the
requested `ps` entries, and the loop stops only because the count reached the
limit, a page came back empty, or it never ran. -/
theorem tsvGetAux_spec (server : PageServer α) (limit ps : Nat)
    (hps : ∀ k n, (server k n).length ≤ k) :
    ∀ (fuel page : Nat) (acc : List α) (reqs : List (Nat × Nat))
      (res : List α) (rqs : List (Nat × Nat)),
      limit - acc.length ≤ fuel →
      tsvGetAux server limit ps page acc reqs = (res, rqs) →
      acc.length ≤ res.length ∧
      (res.length ≤ acc.length ∨ res.length ≤ limit - 1 + ps) ∧
      ∃ k, rqs = reqs ++ (List.range k).map (fun i => (ps, page + i)) ∧
        (limit ≤ res.length ∨
          (0 < k ∧ (server ps (page + k - 1)).length = 0) ∨
          limit ≤ acc.length) := by
  intro fuel
  induction fuel with
  | zero =>
    intro page acc reqs res rqs hfuel heq
    have hle : limit ≤ acc.length := by omega
    rw [tsvGetAux] at heq
    rw [dif_neg (by omega)] at heq
    rw [Prod.mk.injEq] at heq
    obtain ⟨rfl, rfl⟩ := heq
    exact ⟨le_refl _, Or.inl (le_refl _), 0, by simp, Or.inr (Or.inr hle)⟩
  | succ fuel ih =>
    intro page acc reqs res rqs hfuel heq
    rw [tsvGetAux] at heq
    by_cases hlt : acc.length < limit
    · rw [dif_pos hlt] at heq
      by_cases hempty : (server ps page).length = 0
      · rw [dif_pos hempty] at heq
        rw [Prod.mk.injEq] at heq
        obtain ⟨rfl, rfl⟩ := heq
        exact ⟨le_refl _, Or.inl (le_refl _), 1, by simp [List.range_succ],
          Or.inr (Or.inl ⟨Nat.one_pos, by simpa using hempty⟩)⟩
      · rw [dif_neg hempty] at heq
        have hfuel' : limit - (acc ++ server ps page).length ≤ fuel := by
          simp only [List.length_append]
          omega
        obtain ⟨hlen1, hlen2, k', hrqs, hterm⟩ :=
          ih (page + 1) (acc ++ server ps page) (reqs ++ [(ps, page)])
            res rqs hfuel' heq
        refine ⟨?_, ?_, k' + 1, ?_, ?_⟩
        · simp only [List.length_append] at hlen1
          omega
        · have hsrv : (server ps page).length ≤ ps := hps ps page
          rcases hlen2 with h2 | h2
          · refine Or.inr ?_
            simp only [List.length_append] at h2
            omega
          · exact Or.inr h2
        · rw [hrqs, List.append_assoc]
          congr 1
          rw [List.range_succ_eq_map, List.map_cons, List.map_map]
          rw [List.singleton_append]
          congr 1
          refine List.map_congr_left (fun a _ => ?_)
          simp only [Function.comp, Prod.mk.injEq]
          exact ⟨trivial, by omega⟩
        · rcases hterm with h | ⟨hk, hsrv0⟩ | h
          · exact Or.inl h
          · refine Or.inr (Or.inl ⟨by omega, ?_⟩)
            have harg : page + (k' + 1) - 1 = page + 1 + k' - 1 := by omega
            rw [harg]
            exact hsrv0
          · refine Or.inl ?_
            simp only [List.length_append] at hlen1 h
            omega
    · rw [dif_neg hlt] at heq
      rw [Prod.mk.injEq] at heq
      obtain ⟨rfl, rfl⟩ := heq
      exact ⟨le_refl _, Or.inl (le_refl _), 0, by simp, Or.inr (Or.inr (by omega))⟩

/-- Claim C3, counterexample: with limit 3000 against a server that always
fills the requested page, the offset-based `get` returns 4000 records — more
than the caller-specified limit. The loop re-enters at 2000 accumulated
results (2000 < 3000) and appends a full second page of 2000 without
truncating. -/
theorem C3_counterexample_limit_overrun :
    (tsvGet (fun k _ => List.replicate k (0 : ℕ)) 3000).1.length = 4000 ∧
    3000 < (tsvGet (fun k _ => List.replicate k (0 : ℕ)) 3000).1.length := by
  have h : (tsvGet (fun k _ => List.replicate k (0 : ℕ)) 3000).1.length = 4000 := by
    unfold tsvGet
    rw [tsvGetAux]
    norm_num
    rw [tsvGetAux]
    norm_num
    rw [tsvGetAux]
    norm_num
  exact ⟨h, by rw [h]; norm_num⟩

/-- Claim C3 as amended: on ToolQuery/ServiceQuery/VariableQuery retrieval,
each request uses the fixed `page_size = min(limit, 2000)` with page numbers
1, 2, ... in order; the loop terminates when a returned page is empty or the
accumulated count has reached the limit; and — when every page holds at most
the requested page size — the result holds *fewer than limit + page_size*
records: it may exceed the limit by up to `page_size - 1` (the source never
truncates the accumulated list to the limit). -/
theorem C3_offset_get_characterization (server : PageServer α) (limit : Nat)
    (hps : ∀ k n, (server k n).length ≤ k) (res : List α)
    (rqs : List (Nat × Nat)) (heq : tsvGet server limit = (res, rqs)) :
    rqs = (List.range rqs.length).map (fun i => (min limit 2000, i + 1)) ∧
    (limit = 0 → res = []) ∧
    (0 < limit → res.length < limit + min limit 2000) ∧
    (limit ≤ res.length ∨ (server (min limit 2000) rqs.length).length = 0) := by
  obtain ⟨hlen1, hlen2, k, hrqs, hterm⟩ :=
    tsvGetAux_spec server limit (min limit 2000) hps limit 1 [] [] res rqs
      (by simp) heq
  have hk : rqs.length = k := by rw [hrqs]; simp
  refine ⟨?_, ?_, ?_, ?_⟩
  · rw [hk, hrqs]
    simp only [List.nil_append]
    refine List.map_congr_left (fun a _ => ?_)
    simp only [Prod.mk.injEq]
    exact ⟨trivial, by omega⟩
  · intro h0
    subst h0
    have : res.length = 0 := by
      rcases hlen2 with h2 | h2 <;> simpa using h2
    exact List.eq_nil_of_length_eq_zero this
  · intro hpos
    have hmin : 0 < min limit 2000 := by omega
    rcases hlen2 with h2 | h2
    · simp only [List.length_nil] at h2
      omega
    · omega
  · rcases hterm with h | ⟨hk0, hempty⟩ | h
    · exact Or.inl h
    · refine Or.inr ?_
      have harg : 1 + k - 1 = rqs.length := by omega
      rw [← harg]
      exact hempty
    · simp only [List.length_nil] at h
      exact Or.inl (by omega)

/-- Witness for the amended claim C3 at limit 5 against a server that always
fills the requested page: one request `(5, 1)` is made and exactly 5 records
come back. -/
theorem C3_offset_get_characterization_witness :
    ((tsvGet (fun k _ => List.replicate k (0 : ℕ)) 5).2 =
      (List.range (tsvGet (fun k _ => List.replicate k (0 : ℕ)) 5).2.length).map
        (fun i => (min 5 2000, i + 1))) ∧
    ((5 : Nat) = 0 → (tsvGet (fun k _ => List.replicate k (0 : ℕ)) 5).1 = []) ∧
    ((0 : Nat) < 5 →
      (tsvGet (fun k _ => List.replicate k (0 : ℕ)) 5).1.length <
        5 + min 5 2000) ∧
    (5 ≤ (tsvGet (fun k _ => List.replicate k (0 : ℕ)) 5).1.length ∨
      ((fun k _ => List.replicate k (0 : ℕ)) (min 5 2000)
        (tsvGet (fun k _ => List.replicate k (0 : ℕ)) 5).2.length).length = 0) :=
  C3_offset_get_characterization (fun k _ => List.replicate k (0 : ℕ)) 5
    (by simp) _ _ rfl

/-- Invariant of the cursor-based retrieval loop against a faithful list
server: entering the loop at `n_results = n` (with the cursor positioned at
offset `n`, `n < limit`, and at least `limit` matches available), the loop
returns the records from offset `n` up to `limit` in server order, and the
requests it issues have sizes that are positive, at most 2000, and sum to
`limit - n`, with exactly `ceil((limit - n) / 2000)` of them. -/
theorem getAux_listServer_spec (all : List α) (limit : Nat) :
    ∀ (fuel n : Nat) (cursor : Option Nat) (acc : List α) (sizes : List Nat)
      (res : List α) (szs : List Nat),
      limit - n ≤ fuel → n < limit → limit ≤ all.length →
      cursor.getD 0 = n →
      getAux (listServer all) limit n cursor acc sizes = (res, szs) →
      res = acc ++ (all.drop n).take (limit - n) ∧
      ∃ ext, szs = sizes ++ ext ∧
        ext.length = (limit - n + 1999) / 2000 ∧
        ext.sum = limit - n ∧
        ∀ s ∈ ext, 0 < s ∧ s ≤ 2000 := by
  intro fuel
  induction fuel with
  | zero =>
    intro n cursor acc sizes res szs hfuel hn _ _ _
    omega
  | succ fuel ih =>
    intro n cursor acc sizes res szs hfuel hn hall hc heq
    rw [getAux] at heq
    simp only [listServer] at heq
    rw [hc] at heq
    by_cases hnext : n + min (limit - n) 2000 < limit
    · have hlt : n + min (limit - n) 2000 < all.length :=
        lt_of_lt_of_le hnext hall
      rw [if_pos hlt] at heq
      rw [dif_pos ⟨hnext, rfl⟩] at heq
      obtain ⟨hres, ext, hszs, hlenx, hsum, hbnd⟩ :=
        ih (n + min (limit - n) 2000) (some (n + min (limit - n) 2000))
          (acc ++ (all.drop n).take (min (limit - n) 2000))
          (sizes ++ [min (limit - n) 2000]) res szs (by omega) hnext hall rfl
          heq
      have h2000 : 2000 < limit - n := by omega
      constructor
      · rw [hres]
        have hdrop : all.drop (n + min (limit - n) 2000) =
            (all.drop n).drop (min (limit - n) 2000) := by
          rw [List.drop_drop]
        have htake : (all.drop n).take (limit - n) =
            (all.drop n).take (min (limit - n) 2000) ++
              ((all.drop n).drop (min (limit - n) 2000)).take
                (limit - (n + min (limit - n) 2000)) := by
          rw [← List.take_add]
          congr 1
          omega
        rw [htake, hdrop, List.append_assoc]
      · refine ⟨min (limit - n) 2000 :: ext, ?_, ?_, ?_, ?_⟩
        · rw [hszs, List.append_assoc, List.singleton_append]
        · simp only [List.length_cons, hlenx]
          have harg : limit - n + 1999 =
              (limit - (n + min (limit - n) 2000) + 1999) + 2000 := by omega
          rw [harg, Nat.add_div_right _ (by norm_num)]
        · simp only [List.sum_cons, hsum]
          omega
        · intro s hs
          rcases List.mem_cons.mp hs with rfl | hs
          · constructor <;> omega
          · exact hbnd s hs
    · rw [dif_neg (fun hcon => hnext hcon.1)] at heq
      rw [Prod.mk.injEq] at heq
      obtain ⟨rfl, rfl⟩ := heq
      have hps : min (limit - n) 2000 = limit - n := by omega
      constructor
      · rw [hps]
      · refine ⟨[min (limit - n) 2000], rfl, ?_, ?_, ?_⟩
        · simp only [List.length_singleton]
          symm
          apply Nat.div_eq_of_lt_le <;> omega
        · simp [hps]
        · intro s hs
          rw [List.mem_singleton] at hs
          subst hs
          constructor <;> omega

/-- Claim C2: for every limit `N` greater than the single-page maximum 2000,
against a server that returns exactly the requested `page_size` entries per
response and a `cmr-search-after` cursor exactly while more matches remain
(`listServer all` with at least `N` matches), `Query.get(N)` returns exactly
the first `N` records in server order using exactly `ceil(N / 2000)` requests;
every request asks for at most 2000 records and at most the remaining deficit
(the page sizes are `min(N - records_so_far, 2000)`, so they sum to `N`). -/
theorem C2_cursor_pagination_exact (all : List α) (N : Nat)
    (h2000 : 2000 < N) (hlen : N ≤ all.length) (res : List α)
    (szs : List Nat) (heq : queryGet (listServer all) N = (res, szs)) :
    res = all.take N ∧
    szs.length = (N + 1999) / 2000 ∧
    szs.sum = N ∧
    (∀ s ∈ szs, s ≤ 2000) ∧
    (∀ i (hi : i < szs.length),
      szs.get ⟨i, hi⟩ ≤ N - (szs.take i).sum) := by
  obtain ⟨hres, ext, hszs, hlenx, hsum, hbnd⟩ :=
    getAux_listServer_spec all N N 0 none [] [] res szs (by omega) (by omega)
      hlen rfl heq
  rw [List.nil_append] at hszs hres
  subst hszs
  refine ⟨?_, ?_, ?_, fun s hs => (hbnd s hs).2, ?_⟩
  · rw [hres]
    simp
  · simpa using hlenx
  · simpa using hsum
  · intro i hi
    have h1 : (szs.take (i + 1)).sum ≤ szs.sum := by
      conv_rhs => rw [← List.take_append_drop (i + 1) szs]
      rw [List.sum_append]
      exact Nat.le_add_right _ _
    have h2 : (szs.take (i + 1)).sum = (szs.take i).sum + szs.get ⟨i, hi⟩ := by
      rw [List.sum_take_succ szs i hi]
      simp
    have hN : szs.sum = N := by simpa using hsum
    omega

/-- Witness for claim C2: 2001 records are fetched from a 2001-record server
in exactly 2 requests. -/
theorem C2_cursor_pagination_exact_witness :
    (queryGet (listServer (List.range 2001)) 2001).1 =
      (List.range 2001).take 2001 ∧
    (queryGet (listServer (List.range 2001)) 2001).2.length =
      (2001 + 1999) / 2000 ∧
    (queryGet (listServer (List.range 2001)) 2001).2.sum = 2001 ∧
    (∀ s ∈ (queryGet (listServer (List.range 2001)) 2001).2, s ≤ 2000) ∧
    (∀ i (hi : i < (queryGet (listServer (List.range 2001)) 2001).2.length),
      (queryGet (listServer (List.range 2001)) 2001).2.get ⟨i, hi⟩ ≤
        2001 - ((queryGet (listServer (List.range 2001)) 2001).2.take i).sum) :=
  C2_cursor_pagination_exact (List.range 2001) 2001 (by norm_num) (by simp)
    (queryGet (listServer (List.range 2001)) 2001).1
    (queryGet (listServer (List.range 2001)) 2001).2 rfl
